import Mathlib

/-!
Verification of the schema-driven arbitrary-value generator and its three
branded codecs (an io-ts based quotation route), plus the `safeRedirect`
helper of `app/utils.ts`.

The source is TypeScript; we shallowly embed it here:
  * JS values flowing through the generator and the decoders become the
    inductive `Value` (strings, numbers as rationals, booleans, arrays,
    objects as association lists, dates, decimals, `undefined`, `null`).
  * io-ts codecs become the inductive `Codec`: every codec carries its
    `name` (the generator dispatches on names first) and its structural
    form (the `_tag` dispatch of the `switch`).
  * Fallible JS code (a thrown `TypeError`, a failed validation) becomes
    `Except Unit`.
  * The process-wide random source (faker) becomes an oracle
    `RandomSource`: a family of draw functions indexed by a draw counter
    that the generator threads through its recursion.
-/

/-! ### Dates

The repository delegates date handling to its collaborators
(`Date.prototype.toISOString`, date-fns `parseISO` / `isValid` / `format`).
Those are modelled here from the spec. -/

/-- A calendar timestamp: the domain shape of the ISO-date codec.
Modelled from the spec: "domain shape = a timestamp".  JS `Date` objects
carry year/month/day and a time of day (we work at millisecond precision,
as `toISOString` prints). -/
structure DateT where
  year : Nat
  month : Nat
  day : Nat
  hour : Nat
  minute : Nat
  second : Nat
  ms : Nat
deriving DecidableEq, Repr

def isLeap (y : Nat) : Bool :=
  (y % 4 == 0 && y % 100 != 0) || y % 400 == 0

def daysInMonth (y m : Nat) : Nat :=
  if m = 2 then (if isLeap y then 29 else 28)
  else if m = 4 ∨ m = 6 ∨ m = 9 ∨ m = 11 then 30
  else 31

/-- Calendar validity of a timestamp (the `isValid` check of date-fns,
modelled from the spec: "decode fails if the string does not parse to a
valid date").  Years are capped at 9999, the four-digit range that
`toISOString` prints. -/
def DateT.validB (d : DateT) : Bool :=
  1 ≤ d.month && d.month ≤ 12 && 1 ≤ d.day && d.day ≤ daysInMonth d.year d.month &&
  d.hour ≤ 23 && d.minute ≤ 59 && d.second ≤ 59 && d.ms ≤ 999 && d.year ≤ 9999

def digitVal (c : Char) : Nat := c.toNat - 48

/-- Modelled from the spec: `Date.prototype.toISOString` — a full ISO-8601
string `YYYY-MM-DDTHH:mm:ss.sssZ` with fixed-width zero-padded fields. -/
def toISOChars (d : DateT) : List Char :=
  [Nat.digitChar (d.year / 1000 % 10), Nat.digitChar (d.year / 100 % 10),
   Nat.digitChar (d.year / 10 % 10), Nat.digitChar (d.year % 10), '-',
   Nat.digitChar (d.month / 10 % 10), Nat.digitChar (d.month % 10), '-',
   Nat.digitChar (d.day / 10 % 10), Nat.digitChar (d.day % 10), 'T',
   Nat.digitChar (d.hour / 10 % 10), Nat.digitChar (d.hour % 10), ':',
   Nat.digitChar (d.minute / 10 % 10), Nat.digitChar (d.minute % 10), ':',
   Nat.digitChar (d.second / 10 % 10), Nat.digitChar (d.second % 10), '.',
   Nat.digitChar (d.ms / 100 % 10), Nat.digitChar (d.ms / 10 % 10),
   Nat.digitChar (d.ms % 10), 'Z']

def toISOString (d : DateT) : String := ⟨toISOChars d⟩

/-- Modelled from the spec: date-fns `format(date, "yyyy-MM-dd")` — only the
date portion, no time of day. -/
def formatYMDChars (d : DateT) : List Char :=
  [Nat.digitChar (d.year / 1000 % 10), Nat.digitChar (d.year / 100 % 10),
   Nat.digitChar (d.year / 10 % 10), Nat.digitChar (d.year % 10), '-',
   Nat.digitChar (d.month / 10 % 10), Nat.digitChar (d.month % 10), '-',
   Nat.digitChar (d.day / 10 % 10), Nat.digitChar (d.day % 10)]

def formatYMD (d : DateT) : String := ⟨formatYMDChars d⟩

def mkValidDate (y mo dd h mi s ms : Nat) : Option DateT :=
  let d : DateT := ⟨y, mo, dd, h, mi, s, ms⟩
  if d.validB then some d else none

/-- Modelled from the spec: date-fns `parseISO` followed by the `isValid`
check — accepts the date-only shape `yyyy-MM-dd` and the full ISO-8601
shape `YYYY-MM-DDTHH:mm:ss.sssZ` (the two shapes this system emits), and
rejects strings that do not parse to a valid calendar date. -/
def parseISOChars : List Char → Option DateT
  | [y1, y2, y3, y4, '-', m1, m2, '-', d1, d2] =>
      if ([y1, y2, y3, y4, m1, m2, d1, d2].all Char.isDigit) then
        mkValidDate
          (digitVal y1 * 1000 + digitVal y2 * 100 + digitVal y3 * 10 + digitVal y4)
          (digitVal m1 * 10 + digitVal m2) (digitVal d1 * 10 + digitVal d2) 0 0 0 0
      else none
  | [y1, y2, y3, y4, '-', m1, m2, '-', d1, d2, 'T', h1, h2, ':', n1, n2, ':',
     s1, s2, '.', f1, f2, f3, 'Z'] =>
      if ([y1, y2, y3, y4, m1, m2, d1, d2, h1, h2, n1, n2, s1, s2, f1, f2, f3].all
            Char.isDigit) then
        mkValidDate
          (digitVal y1 * 1000 + digitVal y2 * 100 + digitVal y3 * 10 + digitVal y4)
          (digitVal m1 * 10 + digitVal m2) (digitVal d1 * 10 + digitVal d2)
          (digitVal h1 * 10 + digitVal h2) (digitVal n1 * 10 + digitVal n2)
          (digitVal s1 * 10 + digitVal s2)
          (digitVal f1 * 100 + digitVal f2 * 10 + digitVal f3)
      else none
  | _ => none

def parseISO (s : String) : Option DateT := parseISOChars s.data

lemma daysInMonth_le (y m : Nat) : daysInMonth y m ≤ 31 := by
  unfold daysInMonth
  split
  · split <;> omega
  · split <;> omega

lemma digitChar_mod_isDigit (n : Nat) : (Nat.digitChar (n % 10)).isDigit = true := by
  have h : n % 10 < 10 := Nat.mod_lt _ (by decide)
  revert h
  generalize n % 10 = m
  revert m
  decide

lemma digitVal_digitChar_mod (n : Nat) : digitVal (Nat.digitChar (n % 10)) = n % 10 := by
  have h : n % 10 < 10 := Nat.mod_lt _ (by decide)
  revert h
  generalize n % 10 = m
  revert m
  decide

/-- Parsing inverts printing on calendar-valid timestamps. -/
lemma parseISO_toISOString (d : DateT) (h : d.validB = true) :
    parseISO (toISOString d) = some d := by
  obtain ⟨y, mo, dd, hh, mi, s, ms⟩ := d
  simp only [DateT.validB, Bool.and_eq_true, decide_eq_true_eq] at h
  obtain ⟨⟨⟨⟨⟨⟨⟨⟨hmo1, hmo2⟩, hd1⟩, hd2⟩, hh23⟩, hmi⟩, hs⟩, hms⟩, hy⟩ := h
  simp only [parseISO, toISOString, toISOChars, parseISOChars, List.all_cons,
    List.all_nil, digitChar_mod_isDigit, Bool.and_self, if_true, digitVal_digitChar_mod]
  have ey : y / 1000 % 10 * 1000 + y / 100 % 10 * 100 + y / 10 % 10 * 10 + y % 10 = y := by
    omega
  have emo : mo / 10 % 10 * 10 + mo % 10 = mo := by omega
  have hd31 : dd ≤ 31 := le_trans hd2 (daysInMonth_le y mo)
  have edd : dd / 10 % 10 * 10 + dd % 10 = dd := by omega
  have ehh : hh / 10 % 10 * 10 + hh % 10 = hh := by omega
  have emi : mi / 10 % 10 * 10 + mi % 10 = mi := by omega
  have es : s / 10 % 10 * 10 + s % 10 = s := by omega
  have ems : ms / 100 % 10 * 100 + ms / 10 % 10 * 10 + ms % 10 = ms := by omega
  rw [ey, emo, edd, ehh, emi, es, ems]
  simp only [mkValidDate, DateT.validB, Bool.and_eq_true, decide_eq_true_eq]
  simp [hmo1, hmo2, hd1, hd2, hh23, hmi, hs, hms, hy]

lemma toISOString_length (d : DateT) : (toISOString d).length = 24 := rfl

lemma formatYMD_length (d : DateT) : (formatYMD d).length = 10 := rfl

/-! ### JS values -/

/-- A JS value as it flows through the generator and the decoders.  Numbers
are modelled as rationals (`faker.datatype.number` draws integers,
`faker.datatype.float({precision: 0.01})` draws two-decimal floats).
Decoded domain values use `vdate` (a JS `Date`) and `vdec` (a `decimal.js`
`Decimal`, modelled as a rational). -/
inductive Value : Type where
  | vstr (s : String)
  | vnum (q : ℚ)
  | vbool (b : Bool)
  | varr (xs : List Value)
  | vobj (fields : List (String × Value))
  | vdate (d : DateT)
  | vdec (q : ℚ)
  | vundefined
  | vnull
deriving Repr

/-! ### Codecs (the `HasArbitrary` schema model)

Every io-ts codec has a `name` and a structural `_tag`; `generate`
dispatches on the name first and on the tag second.  Leaf-like tags are
collected in `BaseTag`; the three branded codecs (`Uuid`,
`CurrencyFromString`, `DateFromISOString`) are plain `t.Type` instances
without a `_tag`, so they get their own base tags (`uuidT`, `currencyT`,
`dateT`) which no `switch` case matches. -/

inductive BaseTag : Type where
  | unknownT
  | undefinedT
  | nullT
  | voidT
  | stringT
  | numberT
  | booleanT
  | keyofT (keys : List String)
  | literalT (v : String)
  | uuidT
  | dateT
  | currencyT
deriving DecidableEq, Repr

inductive Codec : Type where
  | base (name : String) (tag : BaseTag)
  | arrayT (name : String) (elem : Codec)
  | dictT (name : String) (dom : Codec) (cod : Codec)
  | interfaceT (name : String) (props : List (String × Codec))
  | partialT (name : String) (props : List (String × Codec))
  | exactT (name : String) (inner : Codec)
  | tupleT (name : String) (types : List Codec)
  | unionT (name : String) (types : List Codec)
  | intersectionT (name : String) (types : List Codec)
  | refinementT (name : String) (inner : Codec) (predicate : Value → Bool)

def Codec.name : Codec → String
  | .base nm _ => nm
  | .arrayT nm _ => nm
  | .dictT nm _ _ => nm
  | .interfaceT nm _ => nm
  | .partialT nm _ => nm
  | .exactT nm _ => nm
  | .tupleT nm _ => nm
  | .unionT nm _ => nm
  | .intersectionT nm _ => nm
  | .refinementT nm _ _ => nm

/-- The source's `getProps`: the field mapping of the three struct kinds;
the `ExactType` case recurses into the wrapped codec; any other kind falls
off the switch (JS `undefined`, here `none`). -/
def getProps : Codec → Option (List (String × Codec))
  | .interfaceT _ ps => some ps
  | .partialT _ ps => some ps
  | .exactT _ inner => getProps inner
  | _ => none

lemma getProps_sizeOf : ∀ (c : Codec) (ps : List (String × Codec)),
    getProps c = some ps → sizeOf ps < sizeOf c
  | .interfaceT nm ps', ps, h => by
      simp only [getProps, Option.some.injEq] at h
      subst h
      simp
  | .partialT nm ps', ps, h => by
      simp only [getProps, Option.some.injEq] at h
      subst h
      simp
  | .exactT nm inner, ps, h => by
      simp only [getProps] at h
      have := getProps_sizeOf inner ps h
      simp
      omega
  | .base nm t, ps, h => by simp [getProps] at h
  | .arrayT nm e, ps, h => by simp [getProps] at h
  | .dictT nm d c, ps, h => by simp [getProps] at h
  | .tupleT nm ts, ps, h => by simp [getProps] at h
  | .unionT nm ts, ps, h => by simp [getProps] at h
  | .intersectionT nm ts, ps, h => by simp [getProps] at h
  | .refinementT nm i p, ps, h => by simp [getProps] at h

/-! ### The random source (faker) -/

/-- The process-wide random source, as an oracle: the `k`-th call of each
faker primitive returns the listed value.  `generate` threads the call
counter `k` through its recursion.
  * `rstring`/`rnumber`/`rbool` — `faker.datatype.string/number/boolean`;
  * `rcents` — `faker.datatype.float({precision: 0.01})` as a count of
    hundredths (the drawn float is `rcents k / 100`);
  * `rpast` — `faker.date.past()`;
  * `ruuid` — `faker.datatype.uuid()`;
  * `rnat` — `Math.random() * 10` truncated by `Math.floor`, before the
    `% 10`-style range cap is taken (any natural; the arm keeps `% 10`). -/
structure RandomSource : Type where
  rstring : Nat → String
  rnumber : Nat → Int
  rbool : Nat → Bool
  rcents : Nat → Int
  rpast : Nat → DateT
  ruuid : Nat → String
  rnat : Nat → Nat

/-- Faithfulness of the oracle to faker: `faker.date.past()` only returns
valid calendar timestamps. -/
def RandomSource.Wf (src : RandomSource) : Prop :=
  ∀ k, (src.rpast k).validB = true

/-- JS `value.filter(predicate)`: on an array it is
`Array.prototype.filter` (keeps the elements satisfying the predicate); on
any other value there is no `filter` method and a `TypeError` is thrown. -/
def jsFilter (p : Value → Bool) : Value → Except Unit Value
  | .varr xs => .ok (.varr (xs.filter p))
  | _ => .error ()

mutual

/-- The arbitrary generator (`generate` of the source).  Name-based
short-circuits first, then the structural `switch`; the commented-out tags
of the source fall through and return `undefined` (`.vundefined`).  A thrown
`TypeError` (`.filter` on a non-array, `record.map` over the `undefined`
that `getProps` yields outside the struct kinds) is `.error ()`. -/
def generate (src : RandomSource) (c : Codec) (k : Nat) :
    Except Unit (Value × Nat) :=
  if c.name = "DateFromStringISO" then
    .ok (.vstr (toISOString (src.rpast k)), k + 1)
  else if c.name = "Uuid" then
    .ok (.vstr (src.ruuid k), k + 1)
  else if c.name = "CurrencyFromString" then
    .ok (.vnum ((src.rcents k : ℚ) / 100), k + 1)
  else
    match c with
    | .base _ .stringT => .ok (.vstr (src.rstring k), k + 1)
    | .base _ .numberT => .ok (.vnum ((src.rnumber k : ℚ)), k + 1)
    | .base _ .booleanT => .ok (.vbool (src.rbool k), k + 1)
    | .arrayT _ elem =>
        (genList src elem (src.rnat k % 10) (k + 1)).map
          (fun r => (.varr r.1, r.2))
    | .interfaceT _ ps =>
        (genProps src ps k).map (fun r => (.vobj r.1, r.2))
    | .partialT _ ps =>
        (genProps src ps k).map (fun r => (.vobj r.1, r.2))
    | .exactT _ inner =>
        match hp : getProps inner with
        | some ps => (genProps src ps k).map (fun r => (.vobj r.1, r.2))
        | none => .error ()
    | .refinementT _ inner p =>
        match generate src inner k with
        | .ok (v, k') => (jsFilter p v).map (fun w => (w, k'))
        | .error e => .error e
    | _ => .ok (.vundefined, k)
termination_by 10 * sizeOf c
decreasing_by
  all_goals simp_wf
  all_goals try simp
  all_goals try omega
  all_goals (have h9 := getProps_sizeOf inner ps hp; omega)

/-- Generate `n` elements from the element codec (the
`[...Array(range).keys()].map(...)` of the array arm), threading the draw
counter left to right. -/
def genList (src : RandomSource) (elem : Codec) (n : Nat) (k : Nat) :
    Except Unit (List Value × Nat) :=
  match n with
  | 0 => .ok ([], k)
  | n' + 1 =>
      match generate src elem k with
      | .error e => .error e
      | .ok (v, k1) =>
          match genList src elem n' k1 with
          | .error e => .error e
          | .ok (vs, k2) => .ok (v :: vs, k2)
termination_by 10 * sizeOf elem + n
decreasing_by
  all_goals simp_wf
  all_goals try simp
  all_goals omega

/-- Generate one value per field (the `record.map(props, generate)` of the
struct arm), threading the draw counter through the fields in order. -/
def genProps (src : RandomSource) (ps : List (String × Codec)) (k : Nat) :
    Except Unit (List (String × Value) × Nat) :=
  match ps with
  | [] => .ok ([], k)
  | (s, d) :: rest =>
      match generate src d k with
      | .error e => .error e
      | .ok (v, k1) =>
          match genProps src rest k1 with
          | .error e => .error e
          | .ok (vs, k2) => .ok ((s, v) :: vs, k2)
termination_by 10 * sizeOf ps
decreasing_by
  all_goals simp_wf
  all_goals try simp
  all_goals omega

end

/-! ### Decoders

`decodeC c v` is `c.decode(v)` — the io-ts `validate` pipeline of each
codec, modelled from its documented contract (io-ts itself is an external
collaborator; only the three branded codecs' `validate` bodies are in the
source).  Success carries the decoded domain value. -/

lemma Codec.sizeOf_pos (c : Codec) : 0 < sizeOf c := by
  cases c <;> simp <;> omega

/-- Validation of the leaf tags (`t.string` / `t.number` / `t.boolean` / …),
plus the three branded `validate` bodies from the source:
  * `uuidT` — `t.string.validate(u, c)`: succeeds on any string, unchanged
    (no UUID shape check);
  * `dateT` — `t.string.validate` then `parseISO`/`isValid`: succeeds with
    the parsed timestamp exactly when the string parses to a valid date;
  * `currencyT` — `t.number.validate` then `new Decimal(s)` (which accepts
    every JS number): succeeds with the decimal on any number. -/
def decodeBase : BaseTag → Value → Except Unit Value
  | .stringT, .vstr s => .ok (.vstr s)
  | .numberT, .vnum q => .ok (.vnum q)
  | .booleanT, .vbool b => .ok (.vbool b)
  | .unknownT, v => .ok v
  | .undefinedT, .vundefined => .ok .vundefined
  | .voidT, .vundefined => .ok .vundefined
  | .nullT, .vnull => .ok .vnull
  | .keyofT ks, .vstr s => if ks.contains s then .ok (.vstr s) else .error ()
  | .literalT l, .vstr s => if s = l then .ok (.vstr s) else .error ()
  | .uuidT, .vstr s => .ok (.vstr s)
  | .dateT, .vstr s =>
      match parseISO s with
      | some d => .ok (.vdate d)
      | none => .error ()
  | .currencyT, .vnum q => .ok (.vdec q)
  | _, _ => .error ()

/-- The key-stripping step of `t.exact`: keep only the declared prop keys. -/
def stripKeys (ks : List String) : Value → Value
  | .vobj es => .vobj (es.filter (fun e => ks.contains e.1))
  | v => v

mutual

def decodeC (c : Codec) (v : Value) : Except Unit Value :=
  match c with
  | .base _ t => decodeBase t v
  | .arrayT _ elem =>
      match v with
      | .varr xs => (decodeList elem xs).map .varr
      | _ => .error ()
  | .dictT _ dom cod =>
      match v with
      | .vobj es => (decodeDict dom cod es).map .vobj
      | _ => .error ()
  | .interfaceT _ ps =>
      match v with
      | .vobj es => (decodeProps ps es).map .vobj
      | _ => .error ()
  | .partialT _ ps =>
      match v with
      | .vobj es => (decodePartialProps ps es).map .vobj
      | _ => .error ()
  | .exactT _ inner =>
      match getProps inner with
      | some ps => (decodeC inner v).map (stripKeys (ps.map Prod.fst))
      | none => .error ()
  | .tupleT _ ts =>
      match v with
      | .varr xs => (decodeTuple ts xs).map .varr
      | _ => .error ()
  | .unionT _ ts => decodeUnion ts v
  | .intersectionT _ ts => decodeInter ts v
  | .refinementT _ inner p =>
      match decodeC inner v with
      | .ok a => if p a then .ok a else .error ()
      | .error e => .error e
termination_by (sizeOf c, 0)
decreasing_by
  all_goals simp_wf
  all_goals apply Prod.Lex.left
  all_goals try (simp; try omega)
  all_goals (have h9 := getProps_sizeOf inner ps (by assumption); simp; omega)

def decodeList (elem : Codec) (xs : List Value) : Except Unit (List Value) :=
  match xs with
  | [] => .ok []
  | x :: rest =>
      match decodeC elem x with
      | .error e => .error e
      | .ok w =>
          match decodeList elem rest with
          | .error e => .error e
          | .ok ws => .ok (w :: ws)
termination_by (sizeOf elem, xs.length)
decreasing_by
  all_goals simp_wf
  · apply Prod.Lex.right
    simp
  · apply Prod.Lex.right
    simp

def decodeDict (dom cod : Codec) (es : List (String × Value)) :
    Except Unit (List (String × Value)) :=
  match es with
  | [] => .ok []
  | e :: rest =>
      match decodeC dom (.vstr e.1) with
      | .error e => .error e
      | .ok _ =>
          match decodeC cod e.2 with
          | .error e => .error e
          | .ok w =>
              match decodeDict dom cod rest with
              | .error e => .error e
              | .ok ws => .ok ((e.1, w) :: ws)
termination_by (sizeOf dom + sizeOf cod, es.length)
decreasing_by
  · have h9 := Codec.sizeOf_pos cod
    apply Prod.Lex.left
    omega
  · have h9 := Codec.sizeOf_pos dom
    apply Prod.Lex.left
    omega
  · apply Prod.Lex.right
    simp

def decodeProps (ps : List (String × Codec)) (es : List (String × Value)) :
    Except Unit (List (String × Value)) :=
  match ps with
  | [] => .ok []
  | (s, d) :: rest =>
      match decodeC d (match List.lookup s es with
                       | some v => v
                       | none => .vundefined) with
      | .error e => .error e
      | .ok w =>
          match decodeProps rest es with
          | .error e => .error e
          | .ok ws => .ok ((s, w) :: ws)
termination_by (sizeOf ps, 0)
decreasing_by
  · apply Prod.Lex.left
    simp <;> omega
  · apply Prod.Lex.left
    simp <;> omega

def decodePartialProps (ps : List (String × Codec)) (es : List (String × Value)) :
    Except Unit (List (String × Value)) :=
  match ps with
  | [] => .ok []
  | (s, d) :: rest =>
      match List.lookup s es with
      | none => decodePartialProps rest es
      | some .vundefined => decodePartialProps rest es
      | some v =>
          match decodeC d v with
          | .error e => .error e
          | .ok w =>
              match decodePartialProps rest es with
              | .error e => .error e
              | .ok ws => .ok ((s, w) :: ws)
termination_by (sizeOf ps, 0)
decreasing_by
  all_goals apply Prod.Lex.left
  all_goals simp
  all_goals omega

def decodeTuple (ts : List Codec) (xs : List Value) : Except Unit (List Value) :=
  match ts, xs with
  | [], [] => .ok []
  | t :: ts', x :: xs' =>
      match decodeC t x with
      | .error e => .error e
      | .ok w =>
          match decodeTuple ts' xs' with
          | .error e => .error e
          | .ok ws => .ok (w :: ws)
  | _, _ => .error ()
termination_by (sizeOf ts, 0)
decreasing_by
  · apply Prod.Lex.left
    simp <;> omega
  · apply Prod.Lex.left
    simp <;> omega

def decodeUnion (ts : List Codec) (v : Value) : Except Unit Value :=
  match ts with
  | [] => .error ()
  | t :: rest =>
      match decodeC t v with
      | .ok w => .ok w
      | .error _ => decodeUnion rest v
termination_by (sizeOf ts, 0)
decreasing_by
  · apply Prod.Lex.left
    simp <;> omega
  · apply Prod.Lex.left
    simp <;> omega

/-- Intersection: every member must accept the value; object results are
merged left to right (`Object.assign` flavour).  No claim depends on this
combinator (it is commented out of the generator). -/
def decodeInter (ts : List Codec) (v : Value) : Except Unit Value :=
  match ts with
  | [] => .ok v
  | t :: rest =>
      match decodeC t v with
      | .error e => .error e
      | .ok a =>
          match decodeInter rest v with
          | .error e => .error e
          | .ok b =>
              .ok (match a, b with
                   | .vobj ea, .vobj eb =>
                       .vobj (ea.filter (fun e => !((eb.map Prod.fst).contains e.1)) ++ eb)
                   | _, bb => bb)
termination_by (sizeOf ts, 0)
decreasing_by
  · apply Prod.Lex.left
    simp <;> omega
  · apply Prod.Lex.left
    simp <;> omega

end

/-! ### The three branded codecs and their encoders -/

/-- Source: `const Uuid = new t.Type<String, String, unknown>("Uuid", ...)`. -/
def Uuid : Codec := .base "Uuid" .uuidT

/-- Source: `export const CurrencyFromString = new t.Type<Decimal, number, unknown>("CurrencyFromString", ...)`. -/
def CurrencyFromString : Codec := .base "CurrencyFromString" .currencyT

/-- Source: `const DateFromISOString = new t.Type<Date, string, unknown>("DateFromStringISO", ...)`. -/
def DateFromISOString : Codec := .base "DateFromStringISO" .dateT

/-- Encode of `Uuid`: `(a) => a`. -/
def Uuid_encode (a : String) : String := a

/-- Encode of `CurrencyFromString`: `(a) => a.toNumber()` (a `Decimal` back
to a JS number; the possible float precision loss is outside this
rational-valued model). -/
def CurrencyFromString_encode (a : ℚ) : ℚ := a

/-- Encode of `DateFromISOString`: `(date) => format(date, "yyyy-MM-dd")`. -/
def DateFromISOString_encode (date : DateT) : String := formatYMD date

/-! ### `safeRedirect` (app/utils.ts) -/

/-- Type of the first argument: `FormDataEntryValue | string | null | undefined`
(a `FormDataEntryValue` that is not a string is a `File`). -/
inductive FormValue : Type where
  | str (s : String)
  | file
  | null
  | undefinedV
deriving DecidableEq, Repr

/-- JS truthiness on `FormValue`: `null`, `undefined` and the empty string
are falsy; every other string and a `File` are truthy. -/
def jsTruthy : FormValue → Bool
  | .str s => !(s = "")
  | .file => true
  | .null => false
  | .undefinedV => false

def typeofIsString : FormValue → Bool
  | .str _ => true
  | _ => false

def DEFAULT_REDIRECT : String := "/"

/-- JS `String.prototype.startsWith`, modelled over the character list
(Lean core `String.startsWith` is byte-position based and does not reduce
in the kernel). -/
def strStartsWith (s pre : String) : Bool := pre.data.isPrefixOf s.data

/-- Source `safeRedirect` of `app/utils.ts`:
`if (!to || typeof to !== "string") return defaultRedirect;`
`if (!to.startsWith("/") || to.startsWith("//")) return defaultRedirect;`
`return to;` -/
def safeRedirect (tov : FormValue) (defaultRedirect : String) : String :=
  if !(jsTruthy tov) || !(typeofIsString tov) then defaultRedirect
  else
    match tov with
    | .str s =>
        if !(strStartsWith s "/") || strStartsWith s "//" then defaultRedirect else s
    | _ => defaultRedirect

/-- The claim's wording of the guard, for comparison with the source
function: return `to` exactly when it is a non-empty string that starts
with "/" and does not start with "//"; otherwise return the default. -/
def safeRedirectSpec (tov : FormValue) (defaultRedirect : String) : String :=
  match tov with
  | .str s =>
      if s ≠ "" ∧ strStartsWith s "/" = true ∧ ¬ strStartsWith s "//" = true then s
      else defaultRedirect
  | _ => defaultRedirect

/-! ### The supported schema universe -/

def reservedNames : List String := ["DateFromStringISO", "Uuid", "CurrencyFromString"]

/-- Schema nodes "built only from supported kinds": string/number/boolean
leaves, arrays, the three struct kinds (exact wrapping a node that exposes
props), refinements, and the three reserved branded codecs.  Structural
nodes carry their io-ts names, which are never one of the three reserved
names (io-ts default names are `"string"`, `"Array<...>"`, `"{ ... }"`,
…); props lists have distinct keys because io-ts props are JS objects. -/
inductive SupportedK : Codec → Prop where
  | str {nm} : nm ∉ reservedNames → SupportedK (.base nm .stringT)
  | num {nm} : nm ∉ reservedNames → SupportedK (.base nm .numberT)
  | bool {nm} : nm ∉ reservedNames → SupportedK (.base nm .booleanT)
  | arr {nm e} : nm ∉ reservedNames → SupportedK e → SupportedK (.arrayT nm e)
  | iface {nm ps} : nm ∉ reservedNames → (ps.map Prod.fst).Nodup →
      (∀ p ∈ ps, SupportedK p.2) → SupportedK (.interfaceT nm ps)
  | part {nm ps} : nm ∉ reservedNames → (ps.map Prod.fst).Nodup →
      (∀ p ∈ ps, SupportedK p.2) → SupportedK (.partialT nm ps)
  | exact {nm inner} : nm ∉ reservedNames → SupportedK inner →
      (getProps inner).isSome → SupportedK (.exactT nm inner)
  | refine {nm inner p} : nm ∉ reservedNames → SupportedK inner →
      SupportedK (.refinementT nm inner p)
  | uuid : SupportedK Uuid
  | date : SupportedK DateFromISOString
  | currency : SupportedK CurrencyFromString

/-- Same universe without the refinement kind. -/
inductive SupportedNR : Codec → Prop where
  | str {nm} : nm ∉ reservedNames → SupportedNR (.base nm .stringT)
  | num {nm} : nm ∉ reservedNames → SupportedNR (.base nm .numberT)
  | bool {nm} : nm ∉ reservedNames → SupportedNR (.base nm .booleanT)
  | arr {nm e} : nm ∉ reservedNames → SupportedNR e → SupportedNR (.arrayT nm e)
  | iface {nm ps} : nm ∉ reservedNames → (ps.map Prod.fst).Nodup →
      (∀ p ∈ ps, SupportedNR p.2) → SupportedNR (.interfaceT nm ps)
  | part {nm ps} : nm ∉ reservedNames → (ps.map Prod.fst).Nodup →
      (∀ p ∈ ps, SupportedNR p.2) → SupportedNR (.partialT nm ps)
  | exact {nm inner} : nm ∉ reservedNames → SupportedNR inner →
      (getProps inner).isSome → SupportedNR (.exactT nm inner)
  | uuid : SupportedNR Uuid
  | date : SupportedNR DateFromISOString
  | currency : SupportedNR CurrencyFromString

/-! ### Concrete oracles for witnesses -/

def dateW : DateT := ⟨2020, 5, 17, 3, 4, 5, 6⟩

def srcW : RandomSource :=
  { rstring := fun _ => "s"
    rnumber := fun _ => 7
    rbool := fun _ => true
    rcents := fun _ => 1234
    rpast := fun _ => dateW
    ruuid := fun _ => "1c5e"
    rnat := fun _ => 3 }

def srcZ : RandomSource :=
  { srcW with rnat := fun _ => 10 }

lemma srcW_wf : srcW.Wf := by
  intro k
  show dateW.validB = true
  decide


/-! ### Unfolding lemmas for the generator -/

lemma notReserved_iff {nm : String} : nm ∉ reservedNames ↔
    nm ≠ "DateFromStringISO" ∧ nm ≠ "Uuid" ∧ nm ≠ "CurrencyFromString" := by
  simp [reservedNames]

lemma generate_named_date {src c k} (h : Codec.name c = "DateFromStringISO") :
    generate src c k = .ok (.vstr (toISOString (src.rpast k)), k + 1) := by
  unfold generate
  simp [h]

lemma generate_named_uuid {src c k} (h : Codec.name c = "Uuid") :
    generate src c k = .ok (.vstr (src.ruuid k), k + 1) := by
  unfold generate
  have h1 : Codec.name c ≠ "DateFromStringISO" := by
    rw [h]
    decide
  simp [h, h1]

lemma generate_named_currency {src c k} (h : Codec.name c = "CurrencyFromString") :
    generate src c k = .ok (.vnum ((src.rcents k : ℚ) / 100), k + 1) := by
  unfold generate
  have h1 : Codec.name c ≠ "DateFromStringISO" := by
    rw [h]
    decide
  have h2 : Codec.name c ≠ "Uuid" := by
    rw [h]
    decide
  simp [h, h1, h2]

lemma generate_str {src nm k} (h : nm ∉ reservedNames) :
    generate src (.base nm .stringT) k = .ok (.vstr (src.rstring k), k + 1) := by
  obtain ⟨h1, h2, h3⟩ := notReserved_iff.mp h
  unfold generate
  simp [Codec.name, h1, h2, h3]

lemma generate_num {src nm k} (h : nm ∉ reservedNames) :
    generate src (.base nm .numberT) k = .ok (.vnum ((src.rnumber k : ℚ)), k + 1) := by
  obtain ⟨h1, h2, h3⟩ := notReserved_iff.mp h
  unfold generate
  simp [Codec.name, h1, h2, h3]

lemma generate_bool {src nm k} (h : nm ∉ reservedNames) :
    generate src (.base nm .booleanT) k = .ok (.vbool (src.rbool k), k + 1) := by
  obtain ⟨h1, h2, h3⟩ := notReserved_iff.mp h
  unfold generate
  simp [Codec.name, h1, h2, h3]

lemma generate_arr {src nm elem k} (h : nm ∉ reservedNames) :
    generate src (.arrayT nm elem) k =
      (genList src elem (src.rnat k % 10) (k + 1)).map (fun r => (.varr r.1, r.2)) := by
  obtain ⟨h1, h2, h3⟩ := notReserved_iff.mp h
  unfold generate
  simp [Codec.name, h1, h2, h3]

lemma generate_iface {src nm ps k} (h : nm ∉ reservedNames) :
    generate src (.interfaceT nm ps) k =
      (genProps src ps k).map (fun r => (.vobj r.1, r.2)) := by
  obtain ⟨h1, h2, h3⟩ := notReserved_iff.mp h
  unfold generate
  simp [Codec.name, h1, h2, h3]

lemma generate_part {src nm ps k} (h : nm ∉ reservedNames) :
    generate src (.partialT nm ps) k =
      (genProps src ps k).map (fun r => (.vobj r.1, r.2)) := by
  obtain ⟨h1, h2, h3⟩ := notReserved_iff.mp h
  unfold generate
  simp [Codec.name, h1, h2, h3]

lemma generate_exact {src nm inner ps k} (h : nm ∉ reservedNames)
    (hp : getProps inner = some ps) :
    generate src (.exactT nm inner) k =
      (genProps src ps k).map (fun r => (.vobj r.1, r.2)) := by
  obtain ⟨h1, h2, h3⟩ := notReserved_iff.mp h
  unfold generate
  simp only [Codec.name, h1, h2, h3, if_false, if_neg, not_false_iff]
  split
  next r heq =>
    rw [hp] at heq
    cases heq
    rfl
  next heq =>
    rw [hp] at heq
    cases heq

lemma generate_exact_none {src nm inner k} (h : nm ∉ reservedNames)
    (hp : getProps inner = none) :
    generate src (.exactT nm inner) k = .error () := by
  obtain ⟨h1, h2, h3⟩ := notReserved_iff.mp h
  unfold generate
  simp only [Codec.name, h1, h2, h3, if_false, if_neg, not_false_iff]
  split
  next r heq =>
    rw [hp] at heq
    cases heq
  next heq =>
    rfl

lemma generate_refine {src nm inner p k} (h : nm ∉ reservedNames) :
    generate src (.refinementT nm inner p) k =
      (match generate src inner k with
       | .ok (v, k') => (jsFilter p v).map (fun w => (w, k'))
       | .error e => .error e) := by
  obtain ⟨h1, h2, h3⟩ := notReserved_iff.mp h
  conv_lhs => unfold generate
  simp only [Codec.name, h1, h2, h3, if_false, if_neg, not_false_iff]

lemma genList_zero {src elem k} : genList src elem 0 k = .ok ([], k) := by
  unfold genList
  rfl

lemma genList_succ_err {src elem n k e} (h : generate src elem k = .error e) :
    genList src elem (n + 1) k = .error e := by
  conv_lhs => unfold genList
  rw [h]

lemma genList_succ_ok {src elem n k v k1} (h : generate src elem k = .ok (v, k1)) :
    genList src elem (n + 1) k =
      (match genList src elem n k1 with
       | .error e => .error e
       | .ok (vs, k2) => .ok (v :: vs, k2)) := by
  conv_lhs => unfold genList
  rw [h]

lemma genProps_nil {src k} : genProps src [] k = .ok ([], k) := by
  unfold genProps
  rfl

lemma genProps_cons_err {src s d rest k e} (h : generate src d k = .error e) :
    genProps src ((s, d) :: rest) k = .error e := by
  conv_lhs => unfold genProps
  rw [h]

lemma genProps_cons_ok {src s d rest k v k1} (h : generate src d k = .ok (v, k1)) :
    genProps src ((s, d) :: rest) k =
      (match genProps src rest k1 with
       | .error e => .error e
       | .ok (vs, k2) => .ok ((s, v) :: vs, k2)) := by
  conv_lhs => unfold genProps
  rw [h]

/-! ### Unfolding lemmas for the decoders -/

lemma decodeC_base {nm t v} : decodeC (.base nm t) v = decodeBase t v := by
  unfold decodeC
  rfl

lemma decodeC_arr {nm elem xs} :
    decodeC (.arrayT nm elem) (.varr xs) = (decodeList elem xs).map .varr := by
  unfold decodeC
  rfl

lemma decodeC_iface {nm ps es} :
    decodeC (.interfaceT nm ps) (.vobj es) = (decodeProps ps es).map .vobj := by
  unfold decodeC
  rfl

lemma decodeC_part {nm ps es} :
    decodeC (.partialT nm ps) (.vobj es) = (decodePartialProps ps es).map .vobj := by
  unfold decodeC
  rfl

lemma decodeC_exact {nm inner ps v} (hp : getProps inner = some ps) :
    decodeC (.exactT nm inner) v =
      (decodeC inner v).map (stripKeys (ps.map Prod.fst)) := by
  conv_lhs => unfold decodeC
  rw [hp]

lemma decodeC_refine {nm inner p v} :
    decodeC (.refinementT nm inner p) v =
      (match decodeC inner v with
       | .ok a => if p a then .ok a else .error ()
       | .error e => .error e) := by
  conv_lhs => unfold decodeC

lemma decodeC_refine_ok {nm inner p v a} (h : decodeC inner v = .ok a) :
    decodeC (.refinementT nm inner p) v = if p a then .ok a else .error () := by
  conv_lhs => unfold decodeC
  rw [h]

lemma decodeList_nil {elem} : decodeList elem [] = .ok [] := by
  unfold decodeList
  rfl

lemma decodeList_cons_ok {elem x rest w} (h : decodeC elem x = .ok w) :
    decodeList elem (x :: rest) =
      (match decodeList elem rest with
       | .error e => .error e
       | .ok ws => .ok (w :: ws)) := by
  conv_lhs => unfold decodeList
  rw [h]

lemma decodeProps_nil {es} : decodeProps [] es = .ok [] := by
  unfold decodeProps
  rfl

lemma decodeProps_cons_ok {s d rest es v w} (hl : List.lookup s es = some v)
    (h : decodeC d v = .ok w) :
    decodeProps ((s, d) :: rest) es =
      (match decodeProps rest es with
       | .error e => .error e
       | .ok ws => .ok ((s, w) :: ws)) := by
  conv_lhs => unfold decodeProps
  rw [hl, h]

lemma decodePartialProps_nil {es} : decodePartialProps [] es = .ok [] := by
  unfold decodePartialProps
  rfl

/-! ### Success and shape lemmas -/

lemma genList_spec {src elem} : ∀ {n k xs k'},
    genList src elem n k = .ok (xs, k') →
    xs.length = n ∧ ∀ x ∈ xs, ∃ a b, generate src elem a = .ok (x, b) := by
  intro n
  induction n with
  | zero =>
      intro k xs k' h
      rw [genList_zero] at h
      cases h
      simp
  | succ n ih =>
      intro k xs k' h
      cases hg : generate src elem k with
      | error e =>
          rw [genList_succ_err hg] at h
          cases h
      | ok r =>
          obtain ⟨v, k1⟩ := r
          rw [genList_succ_ok hg] at h
          cases hrest : genList src elem n k1 with
          | error e =>
              rw [hrest] at h
              cases h
          | ok r2 =>
              obtain ⟨vs, k2⟩ := r2
              rw [hrest] at h
              cases h
              obtain ⟨hlen, hall⟩ := ih hrest
              refine ⟨by simp [hlen], ?_⟩
              intro x hx
              rcases List.mem_cons.mp hx with hx | hx
              · exact ⟨k, k1, by rw [hx]; exact hg⟩
              · exact hall x hx

lemma genList_ok {src elem}
    (h : ∀ j, ∃ v j', generate src elem j = .ok (v, j') ∧ ∃ w, decodeC elem v = .ok w) :
    ∀ n k, ∃ xs k', genList src elem n k = .ok (xs, k') ∧
      ∀ x ∈ xs, ∃ w, decodeC elem x = .ok w := by
  intro n
  induction n with
  | zero =>
      intro k
      exact ⟨[], k, genList_zero, by simp⟩
  | succ n ih =>
      intro k
      obtain ⟨v, j', hg, w, hw⟩ := h k
      obtain ⟨xs, k', hrest, hall⟩ := ih j'
      refine ⟨v :: xs, k', ?_, ?_⟩
      · rw [genList_succ_ok hg, hrest]
      · intro x hx
        rcases List.mem_cons.mp hx with hx | hx
        · exact ⟨w, by rw [hx]; exact hw⟩
        · exact hall x hx

lemma decodeList_ok {elem} : ∀ {xs : List Value},
    (∀ x ∈ xs, ∃ w, decodeC elem x = .ok w) →
    ∃ ws, decodeList elem xs = .ok ws := by
  intro xs
  induction xs with
  | nil =>
      intro _
      exact ⟨[], decodeList_nil⟩
  | cons x rest ih =>
      intro h
      obtain ⟨w, hw⟩ := h x (by simp)
      obtain ⟨ws, hws⟩ := ih (fun y hy => h y (by simp [hy]))
      exact ⟨w :: ws, by rw [decodeList_cons_ok hw, hws]⟩

lemma genProps_spec {src} : ∀ {ps : List (String × Codec)} {k es k'},
    genProps src ps k = .ok (es, k') →
    List.Forall₂ (fun p e => p.1 = e.1 ∧ ∃ a b, generate src p.2 a = .ok (e.2, b)) ps es := by
  intro ps
  induction ps with
  | nil =>
      intro k es k' h
      rw [genProps_nil] at h
      cases h
      exact List.Forall₂.nil
  | cons p rest ih =>
      intro k es k' h
      obtain ⟨s, d⟩ := p
      cases hg : generate src d k with
      | error e =>
          rw [genProps_cons_err hg] at h
          cases h
      | ok r =>
          obtain ⟨v, k1⟩ := r
          rw [genProps_cons_ok hg] at h
          cases hrest : genProps src rest k1 with
          | error e =>
              rw [hrest] at h
              cases h
          | ok r2 =>
              obtain ⟨vs, k2⟩ := r2
              rw [hrest] at h
              cases h
              exact List.Forall₂.cons ⟨rfl, k, k1, hg⟩ (ih hrest)

lemma genProps_ok {src} {ps : List (String × Codec)}
    (h : ∀ p ∈ ps, ∀ j, ∃ v j', generate src p.2 j = .ok (v, j') ∧
          ∃ w, decodeC p.2 v = .ok w) :
    ∀ k, ∃ es k', genProps src ps k = .ok (es, k') ∧
      List.Forall₂ (fun p e => p.1 = e.1 ∧ ∃ w, decodeC p.2 e.2 = .ok w) ps es := by
  induction ps with
  | nil =>
      intro k
      exact ⟨[], k, genProps_nil, List.Forall₂.nil⟩
  | cons p rest ih =>
      intro k
      obtain ⟨s, d⟩ := p
      obtain ⟨v, j', hg, w, hw⟩ := h (s, d) (by simp) k
      obtain ⟨es, k', hrest, hall⟩ := ih (fun q hq => h q (by simp [hq])) j'
      refine ⟨(s, v) :: es, k', ?_, ?_⟩
      · rw [genProps_cons_ok hg, hrest]
      · exact List.Forall₂.cons ⟨rfl, w, hw⟩ hall

lemma decodePartialProps_cons {s d rest es} :
    decodePartialProps ((s, d) :: rest) es =
      (match List.lookup s es with
       | none => decodePartialProps rest es
       | some .vundefined => decodePartialProps rest es
       | some v =>
           match decodeC d v with
           | .error e => .error e
           | .ok w =>
               match decodePartialProps rest es with
               | .error e => .error e
               | .ok ws => .ok ((s, w) :: ws)) := by
  conv_lhs => unfold decodePartialProps

lemma forall₂_lookup {R : (String × Codec) → Value → Prop} :
    ∀ {ps : List (String × Codec)} {es : List (String × Value)},
    List.Forall₂ (fun p e => p.1 = e.1 ∧ R p e.2) ps es →
    (ps.map Prod.fst).Nodup →
    ∀ p ∈ ps, ∃ v, List.lookup p.1 es = some v ∧ R p v := by
  intro ps es h
  induction h with
  | nil =>
      intro _ p hp
      simp at hp
  | cons hR htl ih =>
      rename_i p0 e0 tl etl
      intro hnd p hp
      obtain ⟨hfst, hRv⟩ := hR
      simp only [List.map_cons, List.nodup_cons] at hnd
      obtain ⟨hnotin, hnd'⟩ := hnd
      rcases List.mem_cons.mp hp with rfl | hp'
      · refine ⟨e0.2, ?_, hRv⟩
        obtain ⟨e0s, e0v⟩ := e0
        simp only [List.lookup]
        simp only at hfst
        simp [hfst]
      · have hne : p.1 ≠ e0.1 := by
          intro hcontra
          apply hnotin
          rw [hfst, ← hcontra]
          exact List.mem_map_of_mem Prod.fst hp'
        obtain ⟨e0s, e0v⟩ := e0
        obtain ⟨v, hl, hRv'⟩ := ih hnd' p hp'
        refine ⟨v, ?_, hRv'⟩
        have hbeq : (p.1 == e0s) = false := beq_eq_false_iff_ne.mpr hne
        simp only [List.lookup, hbeq]
        exact hl

lemma decodeProps_ok : ∀ {ps : List (String × Codec)} {es : List (String × Value)},
    (∀ p ∈ ps, ∃ v, List.lookup p.1 es = some v ∧ ∃ w, decodeC p.2 v = .ok w) →
    ∃ ws, decodeProps ps es = .ok ws := by
  intro ps
  induction ps with
  | nil =>
      intro es _
      exact ⟨[], decodeProps_nil⟩
  | cons p rest ih =>
      intro es h
      obtain ⟨s, d⟩ := p
      obtain ⟨v, hl, w, hw⟩ := h (s, d) (by simp)
      obtain ⟨ws, hws⟩ := ih (fun q hq => h q (by simp [hq]))
      exact ⟨(s, w) :: ws, by rw [decodeProps_cons_ok hl hw, hws]⟩

lemma decodePartialProps_ok : ∀ {ps : List (String × Codec)} {es : List (String × Value)},
    (∀ p ∈ ps, ∃ v, List.lookup p.1 es = some v ∧ ∃ w, decodeC p.2 v = .ok w) →
    ∃ ws, decodePartialProps ps es = .ok ws := by
  intro ps
  induction ps with
  | nil =>
      intro es _
      exact ⟨[], decodePartialProps_nil⟩
  | cons p rest ih =>
      intro es h
      obtain ⟨s, d⟩ := p
      obtain ⟨v, hl, w, hw0⟩ := h (s, d) (by simp)
      obtain ⟨ws, hws⟩ := ih (fun q hq => h q (by simp [hq]))
      have hw : decodeC d v = .ok w := hw0
      cases v with
      | vundefined => exact ⟨ws, by rw [decodePartialProps_cons, hl]; simp [hws]⟩
      | vstr a => exact ⟨(s, w) :: ws, by rw [decodePartialProps_cons, hl]; simp [hw, hws]⟩
      | vnum a => exact ⟨(s, w) :: ws, by rw [decodePartialProps_cons, hl]; simp [hw, hws]⟩
      | vbool a => exact ⟨(s, w) :: ws, by rw [decodePartialProps_cons, hl]; simp [hw, hws]⟩
      | varr a => exact ⟨(s, w) :: ws, by rw [decodePartialProps_cons, hl]; simp [hw, hws]⟩
      | vobj a => exact ⟨(s, w) :: ws, by rw [decodePartialProps_cons, hl]; simp [hw, hws]⟩
      | vdate a => exact ⟨(s, w) :: ws, by rw [decodePartialProps_cons, hl]; simp [hw, hws]⟩
      | vdec a => exact ⟨(s, w) :: ws, by rw [decodePartialProps_cons, hl]; simp [hw, hws]⟩
      | vnull => exact ⟨(s, w) :: ws, by rw [decodePartialProps_cons, hl]; simp [hw, hws]⟩

/-- Any supported node with props generates through `genProps` on those
props. -/
lemma supported_struct_generate {src inner ps k} (hs : SupportedNR inner)
    (hp : getProps inner = some ps) :
    generate src inner k = (genProps src ps k).map (fun r => (.vobj r.1, r.2)) := by
  cases hs with
  | iface hnm hnd hps =>
      simp only [getProps, Option.some.injEq] at hp
      subst hp
      exact generate_iface hnm
  | part hnm hnd hps =>
      simp only [getProps, Option.some.injEq] at hp
      subst hp
      exact generate_part hnm
  | exact hnm hsi hpi =>
      exact generate_exact hnm hp
  | str h => simp [getProps] at hp
  | num h => simp [getProps] at hp
  | bool h => simp [getProps] at hp
  | arr h hs => simp [getProps] at hp
  | uuid => simp [Uuid, getProps] at hp
  | date => simp [DateFromISOString, getProps] at hp
  | currency => simp [CurrencyFromString, getProps] at hp

/-- Round trip: every refinement-free supported node generates a value its
own decoder accepts, over any faithful random source. -/
lemma generate_decode_ok {src : RandomSource} (hwf : src.Wf) :
    ∀ {c}, SupportedNR c → ∀ k, ∃ v k', generate src c k = .ok (v, k') ∧
      ∃ w, decodeC c v = .ok w := by
  intro c hsup
  induction hsup with
  | str hnm =>
      intro k
      exact ⟨_, _, generate_str hnm, .vstr (src.rstring k), by rw [decodeC_base]; rfl⟩
  | num hnm =>
      intro k
      exact ⟨_, _, generate_num hnm, .vnum ((src.rnumber k : ℚ)), by rw [decodeC_base]; rfl⟩
  | bool hnm =>
      intro k
      exact ⟨_, _, generate_bool hnm, .vbool (src.rbool k), by rw [decodeC_base]; rfl⟩
  | arr hnm hsup ih =>
      intro k
      obtain ⟨xs, k', hgl, hall⟩ := genList_ok ih (src.rnat k % 10) (k + 1)
      obtain ⟨ws, hws⟩ := decodeList_ok hall
      refine ⟨.varr xs, k', ?_, .varr ws, ?_⟩
      · rw [generate_arr hnm, hgl]
        rfl
      · rw [decodeC_arr, hws]
        rfl
  | iface hnm hnd hps ih =>
      intro k
      obtain ⟨es, k', hgp, hall⟩ := genProps_ok ih k
      have hlk := @forall₂_lookup (fun p v => ∃ w, decodeC p.2 v = .ok w) _ _ hall hnd
      obtain ⟨ws, hws⟩ := decodeProps_ok hlk
      refine ⟨.vobj es, k', ?_, .vobj ws, ?_⟩
      · rw [generate_iface hnm, hgp]
        rfl
      · rw [decodeC_iface, hws]
        rfl
  | part hnm hnd hps ih =>
      intro k
      obtain ⟨es, k', hgp, hall⟩ := genProps_ok ih k
      have hlk := @forall₂_lookup (fun p v => ∃ w, decodeC p.2 v = .ok w) _ _ hall hnd
      obtain ⟨ws, hws⟩ := decodePartialProps_ok hlk
      refine ⟨.vobj es, k', ?_, .vobj ws, ?_⟩
      · rw [generate_part hnm, hgp]
        rfl
      · rw [decodeC_part, hws]
        rfl
  | exact hnm hsi hpi ih =>
      intro k
      obtain ⟨ps, hp⟩ := Option.isSome_iff_exists.mp hpi
      obtain ⟨v, k', hg, w, hw⟩ := ih k
      refine ⟨v, k', ?_, stripKeys (ps.map Prod.fst) w, ?_⟩
      · rw [generate_exact hnm hp]
        rw [supported_struct_generate hsi hp] at hg
        exact hg
      · rw [decodeC_exact hp, hw]
        rfl
  | uuid =>
      intro k
      refine ⟨_, _, generate_named_uuid rfl, .vstr (src.ruuid k), ?_⟩
      show decodeC (.base "Uuid" .uuidT) _ = _
      rw [decodeC_base]
      rfl
  | date =>
      intro k
      refine ⟨_, _, generate_named_date rfl, .vdate (src.rpast k), ?_⟩
      show decodeC (.base "DateFromStringISO" .dateT) _ = _
      rw [decodeC_base]
      show (match parseISO (toISOString (src.rpast k)) with
            | some d => Except.ok (Value.vdate d)
            | none => Except.error ()) = _
      rw [parseISO_toISOString _ (hwf k)]
  | currency =>
      intro k
      refine ⟨_, _, generate_named_currency rfl, .vdec ((src.rcents k : ℚ) / 100), ?_⟩
      show decodeC (.base "CurrencyFromString" .currencyT) _ = _
      rw [decodeC_base]
      rfl

lemma genList_ok' {src elem}
    (h : ∀ j, ∃ v j', generate src elem j = .ok (v, j')) :
    ∀ n k, ∃ xs k', genList src elem n k = .ok (xs, k') := by
  intro n
  induction n with
  | zero =>
      intro k
      exact ⟨[], k, genList_zero⟩
  | succ n ih =>
      intro k
      obtain ⟨v, j', hg⟩ := h k
      obtain ⟨xs, k', hrest⟩ := ih j'
      exact ⟨v :: xs, k', by rw [genList_succ_ok hg, hrest]⟩

lemma genProps_ok' {src} {ps : List (String × Codec)}
    (h : ∀ p ∈ ps, ∀ j, ∃ v j', generate src p.2 j = .ok (v, j')) :
    ∀ k, ∃ es k', genProps src ps k = .ok (es, k') := by
  induction ps with
  | nil =>
      intro k
      exact ⟨[], k, genProps_nil⟩
  | cons p rest ih =>
      intro k
      obtain ⟨s, d⟩ := p
      obtain ⟨v, j', hg⟩ := h (s, d) (by simp) k
      obtain ⟨es, k', hrest⟩ := ih (fun q hq => h q (by simp [hq])) j'
      exact ⟨(s, v) :: es, k', by rw [genProps_cons_ok hg, hrest]⟩

/-- Generation alone (no decoding) succeeds on every refinement-free
supported node, over any random source. -/
lemma generate_ok_of_supported {src : RandomSource} :
    ∀ {c}, SupportedNR c → ∀ k, ∃ v k', generate src c k = .ok (v, k') := by
  intro c hsup
  induction hsup with
  | str hnm => exact fun k => ⟨_, _, generate_str hnm⟩
  | num hnm => exact fun k => ⟨_, _, generate_num hnm⟩
  | bool hnm => exact fun k => ⟨_, _, generate_bool hnm⟩
  | arr hnm hsup ih =>
      intro k
      obtain ⟨xs, k', hgl⟩ := genList_ok' ih (src.rnat k % 10) (k + 1)
      exact ⟨.varr xs, k', by rw [generate_arr hnm, hgl]; rfl⟩
  | iface hnm hnd hps ih =>
      intro k
      obtain ⟨es, k', hgp⟩ := genProps_ok' ih k
      exact ⟨.vobj es, k', by rw [generate_iface hnm, hgp]; rfl⟩
  | part hnm hnd hps ih =>
      intro k
      obtain ⟨es, k', hgp⟩ := genProps_ok' ih k
      exact ⟨.vobj es, k', by rw [generate_part hnm, hgp]; rfl⟩
  | exact hnm hsi hpi ih =>
      intro k
      obtain ⟨ps, hp⟩ := Option.isSome_iff_exists.mp hpi
      obtain ⟨v, k', hg⟩ := ih k
      refine ⟨v, k', ?_⟩
      rw [generate_exact hnm hp]
      rw [supported_struct_generate hsi hp] at hg
      exact hg
  | uuid => exact fun k => ⟨_, _, generate_named_uuid rfl⟩
  | date => exact fun k => ⟨_, _, generate_named_date rfl⟩
  | currency => exact fun k => ⟨_, _, generate_named_currency rfl⟩

lemma forall₂_map_fst {R : (String × Codec) → (String × Value) → Prop}
    {ps : List (String × Codec)} {es : List (String × Value)}
    (h : List.Forall₂ (fun p e => p.1 = e.1 ∧ R p e) ps es) :
    es.map Prod.fst = ps.map Prod.fst := by
  induction h with
  | nil => rfl
  | cons hR htl ih => simp [ih, hR.1]

/-! ### Claim theorems -/

/-- C2: name-based short-circuits take precedence over structural tag
dispatch: whatever a node's structural tag, a reserved name routes
generation through the corresponding branch; in particular a
`NumberType`-tagged node named `"CurrencyFromString"` yields the
two-decimal currency draw (never the generic number draw), and that value
decodes into a decimal. -/
theorem claim_C2_name_dispatch {src : RandomSource} {c : Codec} {k : Nat} :
    (c.name = "DateFromStringISO" →
       generate src c k = .ok (.vstr (toISOString (src.rpast k)), k + 1)) ∧
    (c.name = "Uuid" → generate src c k = .ok (.vstr (src.ruuid k), k + 1)) ∧
    (c.name = "CurrencyFromString" →
       generate src c k = .ok (.vnum ((src.rcents k : ℚ) / 100), k + 1)) ∧
    (generate src (.base "CurrencyFromString" .numberT) k =
       .ok (.vnum ((src.rcents k : ℚ) / 100), k + 1) ∧
     ((src.rcents k : ℚ) / 100) * 100 = (src.rcents k : ℚ) ∧
     decodeC CurrencyFromString (.vnum ((src.rcents k : ℚ) / 100)) =
       .ok (.vdec ((src.rcents k : ℚ) / 100))) := by
  refine ⟨generate_named_date, generate_named_uuid, generate_named_currency,
    generate_named_currency rfl, ?_, ?_⟩
  · rw [div_mul_cancel₀]
    norm_num
  · show decodeC (.base "CurrencyFromString" .currencyT) _ = _
    rw [decodeC_base]
    rfl

theorem claim_C2_witness :
    generate srcW (.base "CurrencyFromString" .numberT) 0 =
      .ok (.vnum ((srcW.rcents 0 : ℚ) / 100), 1) ∧
    generate srcW (.base "DateFromStringISO" .numberT) 0 =
      .ok (.vstr (toISOString (srcW.rpast 0)), 1) ∧
    generate srcW (.arrayT "Uuid" (.base "string" .stringT)) 0 =
      .ok (.vstr (srcW.ruuid 0), 1) :=
  ⟨(@claim_C2_name_dispatch srcW (.base "CurrencyFromString" .numberT) 0).2.2.2.1,
   (@claim_C2_name_dispatch srcW (.base "DateFromStringISO" .numberT) 0).1 rfl,
   (@claim_C2_name_dispatch srcW (.arrayT "Uuid" (.base "string" .stringT)) 0).2.1 rfl⟩

/-- C3 (amended): for a refinement node the generator recurses into the
inner node and then applies JS `.filter` with the predicate to the
candidate value: an array candidate becomes the sub-array of elements
satisfying the predicate (the result as a whole need not satisfy it), any
other candidate raises a `TypeError`.  The predicate is not guaranteed to
hold of the returned value. -/
theorem claim_C3_refinement_filter {src : RandomSource} {nm : String} {inner : Codec}
    {p : Value → Bool} {k : Nat} (h : nm ∉ reservedNames) :
    generate src (.refinementT nm inner p) k =
      (match generate src inner k with
       | .ok (v, k') => (jsFilter p v).map (fun w => (w, k'))
       | .error e => .error e) ∧
    (∀ xs, jsFilter p (.varr xs) = .ok (.varr (xs.filter p))) ∧
    (∀ v, (∀ xs, v ≠ .varr xs) → jsFilter p v = .error ()) := by
  refine ⟨generate_refine h, fun xs => rfl, ?_⟩
  intro v hv
  cases v with
  | varr xs => exact absurd rfl (hv xs)
  | vstr s => rfl
  | vnum q => rfl
  | vbool b => rfl
  | vobj es => rfl
  | vdate d => rfl
  | vdec q => rfl
  | vundefined => rfl
  | vnull => rfl

/-- The source whose array draws have length 1 (all other draws as
`srcW`). -/
def srcE : RandomSource := { srcW with rnat := fun _ => 1 }

/-- A refinement node over an array of strings whose predicate rejects
everything. -/
def cEx : Codec :=
  .refinementT "IsEmpty" (.arrayT "arrstr" (.base "string" .stringT)) (fun _ => false)

/-- C3, the claim as stated, is false: on this refinement node generation
succeeds with the empty array, and the node's predicate (constantly false)
does not hold of that result. -/
theorem claim_C3_counterexample :
    generate srcE cEx 0 = .ok (.varr [], 2) ∧
    (fun (_ : Value) => false) (.varr []) = false := by
  constructor
  · rw [show cEx = .refinementT "IsEmpty" (.arrayT "arrstr" (.base "string" .stringT))
        (fun _ => false) from rfl]
    rw [generate_refine (by decide), generate_arr (by decide)]
    have h1 : srcE.rnat 0 % 10 = 0 + 1 := rfl
    rw [h1, genList_succ_ok (generate_str (by decide)), genList_zero]
    simp [jsFilter, Except.map]
  · rfl

theorem claim_C3_witness :
    generate srcE (.refinementT "IsNonempty" (.arrayT "arrstr" (.base "string" .stringT))
        (fun v => match v with | .vstr _ => true | _ => false)) 0 =
      (match generate srcE (.arrayT "arrstr" (.base "string" .stringT)) 0 with
       | .ok (v, k') =>
           (jsFilter (fun v => match v with | .vstr _ => true | _ => false) v).map
             (fun w => (w, k'))
       | .error e => .error e) ∧
    (∀ xs, jsFilter (fun v => match v with | .vstr _ => true | _ => false) (.varr xs) =
       .ok (.varr (xs.filter (fun v => match v with | .vstr _ => true | _ => false)))) ∧
    (∀ v, (∀ xs, v ≠ .varr xs) →
       jsFilter (fun v => match v with | .vstr _ => true | _ => false) v = .error ()) :=
  claim_C3_refinement_filter (by decide)

/-- C5: the array arm draws a count in `[0, 10)`, recurses into the element
node that many times and returns the ordered results; every generated array
has length `< 10`, and a zero-length draw yields the empty array. -/
theorem claim_C5_array_bounds {src : RandomSource} {nm : String} {elem : Codec} {k : Nat}
    (hnm : nm ∉ reservedNames) :
    (∀ v k', generate src (.arrayT nm elem) k = .ok (v, k') →
       ∃ xs, v = .varr xs ∧ xs.length = src.rnat k % 10 ∧ xs.length < 10 ∧
         ∀ x ∈ xs, ∃ a b, generate src elem a = .ok (x, b)) ∧
    (src.rnat k % 10 = 0 → generate src (.arrayT nm elem) k = .ok (.varr [], k + 1)) := by
  constructor
  · intro v k' h
    rw [generate_arr hnm] at h
    cases hgl : genList src elem (src.rnat k % 10) (k + 1) with
    | error e =>
        rw [hgl] at h
        cases h
    | ok r =>
        obtain ⟨xs, k2⟩ := r
        rw [hgl] at h
        simp only [Except.map, Except.ok.injEq, Prod.mk.injEq] at h
        obtain ⟨hv, hk⟩ := h
        obtain ⟨hlen, hall⟩ := genList_spec hgl
        exact ⟨xs, hv.symm, hlen, hlen ▸ Nat.mod_lt _ (by omega), hall⟩
  · intro h0
    rw [generate_arr hnm, h0, genList_zero]
    rfl

theorem claim_C5_witness :
    generate srcZ (.arrayT "Array<string>" (.base "string" .stringT)) 0 =
      .ok (.varr [], 1) :=
  (claim_C5_array_bounds (by decide)).2 (by decide)

/-- C9 (implicit): a node with a non-reserved name whose structural tag is
one of the unsupported kinds falls through the `switch` and yields JS
`undefined` — no error is raised and no draw is consumed. -/
theorem claim_C9_unsupported_undefined {src : RandomSource} {nm : String} {k : Nat}
    (hnm : nm ∉ reservedNames) :
    generate src (.base nm .unknownT) k = .ok (.vundefined, k) ∧
    generate src (.base nm .undefinedT) k = .ok (.vundefined, k) ∧
    generate src (.base nm .voidT) k = .ok (.vundefined, k) ∧
    generate src (.base nm .nullT) k = .ok (.vundefined, k) ∧
    (∀ ks, generate src (.base nm (.keyofT ks)) k = .ok (.vundefined, k)) ∧
    (∀ s, generate src (.base nm (.literalT s)) k = .ok (.vundefined, k)) ∧
    (∀ dom cod, generate src (.dictT nm dom cod) k = .ok (.vundefined, k)) ∧
    (∀ ts, generate src (.tupleT nm ts) k = .ok (.vundefined, k)) ∧
    (∀ ts, generate src (.unionT nm ts) k = .ok (.vundefined, k)) ∧
    (∀ ts, generate src (.intersectionT nm ts) k = .ok (.vundefined, k)) := by
  obtain ⟨h1, h2, h3⟩ := notReserved_iff.mp hnm
  refine ⟨?_, ?_, ?_, ?_, ?_, ?_, ?_, ?_, ?_, ?_⟩ <;>
    (intros; unfold generate; simp [Codec.name, h1, h2, h3])

theorem claim_C9_witness :
    generate srcW (.base "unknown" .unknownT) 0 = .ok (.vundefined, 0) ∧
    generate srcW
        (.dictT "record" (.base "string" .stringT) (.base "number" .numberT)) 0 =
      .ok (.vundefined, 0) :=
  ⟨(claim_C9_unsupported_undefined (by decide)).1,
   (claim_C9_unsupported_undefined (by decide)).2.2.2.2.2.2.1 _ _⟩

/-- C1 (amended: refinement nodes are excluded).  For every schema node
built only from string/number/boolean leaves, arrays, the three struct
kinds and the three reserved branded codecs — refinements excluded —
decoding the generated value with the node's own decoder succeeds, over any
faithful random source. -/
theorem claim_C1_roundtrip_no_refinement {src : RandomSource} {c : Codec}
    (hsup : SupportedNR c) (hwf : src.Wf) (k : Nat) :
    ∃ v k' w, generate src c k = .ok (v, k') ∧ decodeC c v = .ok w := by
  obtain ⟨v, k', hg, w, hw⟩ := generate_decode_ok hwf hsup k
  exact ⟨v, k', w, hg, hw⟩

/-- C1 as stated (with refinement among the supported kinds) is false: on
the supported node `cEx` — a refinement over an array of strings with an
always-false predicate — generation succeeds with `[]` but the node's own
decoder rejects that value. -/
theorem claim_C1_counterexample :
    SupportedK cEx ∧ srcE.Wf ∧
    generate srcE cEx 0 = .ok (.varr [], 2) ∧
    decodeC cEx (.varr []) = .error () := by
  refine ⟨?_, ?_, ?_, ?_⟩
  · exact SupportedK.refine (by decide)
      (SupportedK.arr (by decide) (SupportedK.str (by decide)))
  · intro k
    show dateW.validB = true
    decide
  · rw [show cEx = .refinementT "IsEmpty" (.arrayT "arrstr" (.base "string" .stringT))
        (fun _ => false) from rfl]
    rw [generate_refine (by decide), generate_arr (by decide)]
    have h1 : srcE.rnat 0 % 10 = 0 + 1 := rfl
    rw [h1, genList_succ_ok (generate_str (by decide)), genList_zero]
    simp [jsFilter, Except.map]
  · show decodeC (.refinementT "IsEmpty" (.arrayT "arrstr" (.base "string" .stringT))
        (fun _ => false)) (.varr []) = .error ()
    have harr : decodeC (.arrayT "arrstr" (.base "string" .stringT)) (.varr []) =
        .ok (.varr []) := by
      rw [decodeC_arr, decodeList_nil]
      rfl
    rw [decodeC_refine_ok harr]
    rfl

theorem claim_C1_witness :
    ∃ v k' w, generate srcW
        (.interfaceT "Quot" [("id", Uuid), ("createdAt", DateFromISOString),
                             ("totalAmount", CurrencyFromString),
                             ("n", .base "number" .numberT)]) 0 = .ok (v, k') ∧
      decodeC (.interfaceT "Quot" [("id", Uuid), ("createdAt", DateFromISOString),
                                   ("totalAmount", CurrencyFromString),
                                   ("n", .base "number" .numberT)]) v = .ok w := by
  apply claim_C1_roundtrip_no_refinement _ srcW_wf 0
  refine SupportedNR.iface (by decide) (by decide) ?_
  intro p hp
  simp only [List.mem_cons, List.not_mem_nil, or_false] at hp
  rcases hp with rfl | rfl | rfl | rfl
  · exact SupportedNR.uuid
  · exact SupportedNR.date
  · exact SupportedNR.currency
  · exact SupportedNR.num (by decide)

/-- C4: for each struct-kind node (interface, partial, or exact wrapping
one of those) over supported field schemas, generation returns an object
whose key list is exactly the field names of the (one-level-unwrapped)
field mapping, each key bound to a value generated from that field's
node. -/
theorem claim_C4_struct_fields {src : RandomSource} {k : Nat} {nm nm' : String}
    {ps : List (String × Codec)} {c : Codec}
    (hnm : nm ∉ reservedNames) (hnm' : nm' ∉ reservedNames)
    (hfields : ∀ p ∈ ps, SupportedNR p.2)
    (hshape : c = .interfaceT nm ps ∨ c = .partialT nm ps ∨
              c = .exactT nm (.interfaceT nm' ps) ∨ c = .exactT nm (.partialT nm' ps)) :
    ∃ es k', generate src c k = .ok (.vobj es, k') ∧
      es.map Prod.fst = ps.map Prod.fst ∧
      List.Forall₂ (fun p e => p.1 = e.1 ∧ ∃ a b, generate src p.2 a = .ok (e.2, b))
        ps es := by
  obtain ⟨es, k', hgp⟩ :=
    genProps_ok' (fun p hp => generate_ok_of_supported (hfields p hp)) k
  have hspec := genProps_spec hgp
  have hkeys := forall₂_map_fst hspec
  have hgen : generate src c k = (genProps src ps k).map (fun r => (.vobj r.1, r.2)) := by
    rcases hshape with rfl | rfl | rfl | rfl
    · exact generate_iface hnm
    · exact generate_part hnm
    · exact generate_exact hnm rfl
    · exact generate_exact hnm rfl
  refine ⟨es, k', ?_, hkeys, hspec⟩
  rw [hgen, hgp]
  rfl

theorem claim_C4_witness :
    ∃ es k', generate srcW
        (.exactT "Ex" (.interfaceT "I" [("a", .base "string" .stringT),
                                        ("b", .base "number" .numberT)])) 0 =
      .ok (.vobj es, k') ∧
      es.map Prod.fst = ["a", "b"] ∧
      List.Forall₂ (fun p e => p.1 = e.1 ∧
          ∃ a b, generate srcW p.2 a = .ok (e.2, b))
        [("a", .base "string" .stringT), ("b", .base "number" .numberT)] es := by
  apply claim_C4_struct_fields (by decide) (by decide) ?_ (Or.inr (Or.inr (Or.inl rfl)))
  intro p hp
  simp only [List.mem_cons, List.not_mem_nil, or_false] at hp
  rcases hp with rfl | rfl
  · exact SupportedNR.str (by decide)
  · exact SupportedNR.num (by decide)

/-- C6: the ISO-date codec's decode succeeds exactly on strings that parse
to a valid date; its encode prints only the `yyyy-MM-dd` date portion, so
re-encoding the timestamp decoded from a generated wire string (which
always carries a time-of-day component) never returns the original wire
string. -/
theorem claim_C6_date_asymmetry {src : RandomSource} {k : Nat}
    (hwf : (src.rpast k).validB = true) :
    (∀ v, (∃ w, decodeC DateFromISOString v = .ok w) ↔
       ∃ s, v = .vstr s ∧ (parseISO s).isSome) ∧
    generate src DateFromISOString k = .ok (.vstr (toISOString (src.rpast k)), k + 1) ∧
    decodeC DateFromISOString (.vstr (toISOString (src.rpast k))) =
      .ok (.vdate (src.rpast k)) ∧
    DateFromISOString_encode (src.rpast k) ≠ toISOString (src.rpast k) := by
  refine ⟨?_, generate_named_date rfl, ?_, ?_⟩
  · intro v
    show (∃ w, decodeC (.base "DateFromStringISO" .dateT) v = .ok w) ↔ _
    rw [decodeC_base]
    cases v with
    | vstr s =>
        show (∃ w, (match parseISO s with
                    | some d => Except.ok (Value.vdate d)
                    | none => Except.error ()) = .ok w) ↔ _
        cases hps : parseISO s with
        | some d => simp [hps]
        | none => simp [hps]
    | vnum q => simp [decodeBase]
    | vbool b => simp [decodeBase]
    | varr xs => simp [decodeBase]
    | vobj es => simp [decodeBase]
    | vdate d => simp [decodeBase]
    | vdec q => simp [decodeBase]
    | vundefined => simp [decodeBase]
    | vnull => simp [decodeBase]
  · show decodeC (.base "DateFromStringISO" .dateT) _ = _
    rw [decodeC_base]
    show (match parseISO (toISOString (src.rpast k)) with
          | some d => Except.ok (Value.vdate d)
          | none => Except.error ()) = _
    rw [parseISO_toISOString _ hwf]
  · intro hc
    have hlen := congrArg String.length hc
    rw [toISOString_length] at hlen
    have h10 : (DateFromISOString_encode (src.rpast k)).length = 10 :=
      formatYMD_length (src.rpast k)
    omega

theorem claim_C6_witness :
    (∀ v, (∃ w, decodeC DateFromISOString v = .ok w) ↔
       ∃ s, v = .vstr s ∧ (parseISO s).isSome) ∧
    generate srcW DateFromISOString 0 = .ok (.vstr (toISOString (srcW.rpast 0)), 1) ∧
    decodeC DateFromISOString (.vstr (toISOString (srcW.rpast 0))) =
      .ok (.vdate (srcW.rpast 0)) ∧
    DateFromISOString_encode (srcW.rpast 0) ≠ toISOString (srcW.rpast 0) :=
  claim_C6_date_asymmetry (by decide)

/-- C7: the UUID-like codec's decode is `t.string.validate`: it succeeds,
returning the string unchanged, exactly when the input is a string — no
UUID shape check is performed (a patently non-UUID string passes). -/
theorem claim_C7_uuid_leniency :
    (∀ v, decodeC Uuid v = (match v with
                            | .vstr s => .ok (.vstr s)
                            | _ => .error ())) ∧
    decodeC Uuid (.vstr "definitely-not-a-uuid") = .ok (.vstr "definitely-not-a-uuid") := by
  constructor
  · intro v
    show decodeC (.base "Uuid" .uuidT) v = _
    rw [decodeC_base]
    cases v <;> rfl
  · show decodeC (.base "Uuid" .uuidT) _ = _
    rw [decodeC_base]
    rfl

/-- C8: the three branded encoders are total functions from domain shape to
wire shape: the UUID encoder is the identity on strings, the currency
encoder maps the decimal to the underlying number, and the date encoder
always returns a ten-character `yyyy-MM-dd` string. -/
theorem claim_C8_encode_total :
    (∀ a : String, Uuid_encode a = a) ∧
    (∀ q : ℚ, CurrencyFromString_encode q = q) ∧
    (∀ d : DateT, DateFromISOString_encode d = formatYMD d ∧
       (DateFromISOString_encode d).length = 10) :=
  ⟨fun _ => rfl, fun _ => rfl, fun d => ⟨rfl, formatYMD_length d⟩⟩

lemma strStartsWith_slash_of_double {s : String}
    (h : strStartsWith s "//" = true) : strStartsWith s "/" = true := by
  unfold strStartsWith at h ⊢
  show List.isPrefixOf ['/'] s.data = true
  have h' : List.isPrefixOf ['/', '/'] s.data = true := h
  cases hd : s.data with
  | nil =>
      rw [hd] at h'
      simp [List.isPrefixOf] at h'
  | cons a t =>
      rw [hd] at h'
      cases t with
      | nil => simp [List.isPrefixOf] at h'
      | cons b t' =>
          simp [List.isPrefixOf] at h' ⊢
          exact h'.1

/-- C10 (implicit): `safeRedirect` returns either the default or `to`
itself, and returns `to` exactly when `to` is a non-empty string that
starts with "/" but not "//"; null, undefined, non-strings, the empty
string and protocol-relative or external URLs all fall back to the
default. -/
theorem claim_C10_safeRedirect :
    (∀ tov d, safeRedirect tov d = safeRedirectSpec tov d) ∧
    (∀ tov d, safeRedirect tov d = d ∨ ∃ s, tov = .str s ∧ safeRedirect tov d = s) ∧
    safeRedirect (.str "//evil.example") "/" = "/" ∧
    safeRedirect .null "/d" = "/d" ∧
    safeRedirect .undefinedV "/d" = "/d" ∧
    safeRedirect .file "/d" = "/d" ∧
    safeRedirect (.str "") "/d" = "/d" ∧
    safeRedirect (.str "https://evil.example") "/d" = "/d" ∧
    safeRedirect (.str "/dash") "/d" = "/dash" := by
  have heq : ∀ tov d, safeRedirect tov d = safeRedirectSpec tov d := by
    intro tov d
    cases tov with
    | str s =>
        by_cases h1 : s = ""
        · subst h1
          simp [safeRedirect, safeRedirectSpec, jsTruthy, typeofIsString]
        · by_cases h2 : strStartsWith s "/" = true
          · by_cases h3 : strStartsWith s "//" = true
            · simp [safeRedirect, safeRedirectSpec, jsTruthy, typeofIsString, h1, h2, h3]
            · simp [safeRedirect, safeRedirectSpec, jsTruthy, typeofIsString, h1, h2, h3]
          · have h3 : ¬ strStartsWith s "//" = true := fun hc =>
              h2 (strStartsWith_slash_of_double hc)
            simp [safeRedirect, safeRedirectSpec, jsTruthy, typeofIsString, h1, h2, h3]
    | file => simp [safeRedirect, safeRedirectSpec, jsTruthy, typeofIsString]
    | null => simp [safeRedirect, safeRedirectSpec, jsTruthy, typeofIsString]
    | undefinedV => simp [safeRedirect, safeRedirectSpec, jsTruthy, typeofIsString]
  refine ⟨heq, ?_, by decide, by decide, by decide, by decide, by decide, by decide,
    by decide⟩
  intro tov d
  rw [heq]
  cases tov with
  | str s =>
      by_cases hcond : s ≠ "" ∧ strStartsWith s "/" = true ∧ ¬ strStartsWith s "//" = true
      · exact Or.inr ⟨s, rfl, by simp [safeRedirectSpec, hcond]⟩
      · refine Or.inl ?_
        show safeRedirectSpec (.str s) d = d
        simp only [safeRedirectSpec]
        rw [if_neg hcond]
  | file => exact Or.inl rfl
  | null => exact Or.inl rfl
  | undefinedV => exact Or.inl rfl
